import Mathlib

/-!
Shallow embedding of pkg/controllers/ruleset/ruleset_controller.go
(the RuleSet reconciliation engine) and proofs about its claims.

Go maps are embedded as association lists with unique keys, Go slices as
lists, durations as nanosecond counts (Nat), and the collaborators
(object store, expectation guard, rule evaluator, notification sinks) as
an explicit environment of responses.  Each reconcile pass is a pure
function from that environment to a result together with the list of
side effects it performed, in program order.
-/

namespace Ruleset

/-- Kubernetes API error classes distinguished by the controller
(errors.IsNotFound, conflict errors retried by retry.RetryOnConflict,
and everything else). -/
inductive K8sErr where
  | notFound
  | conflict
  | other
deriving DecidableEq, Repr

/-- RejectInfo from the API types: one rule's rejection of a target. -/
structure RejectInfo where
  ruleName : String
  reason : String
deriving DecidableEq, Repr

/-- Detail from the API types: per-target outcome record. -/
structure Detail where
  name : String
  stage : String
  passed : Bool
  passedRules : List String
  rejectInfo : List RejectInfo
deriving DecidableEq, Repr

/-- RuleState entries are only concatenated and compared for equality by
this controller, so they are embedded as opaque tokens. -/
abbrev RuleState := String

/-- RuleSetStatus: the status snapshot written by the controller.
UpdateTime is a timestamp (nanoseconds). -/
structure RuleSetStatus where
  targets : List String
  observedGeneration : Int
  details : List Detail
  ruleStates : List RuleState
  updateTime : Option Nat
deriving DecidableEq, Repr

/-- ProcessResult (processor.ProcessResult): one stage's StageResult.
PassRules maps a target name to the set of rules it passed (the Go
sets.String is embedded as the list of its members); Rejected maps a
target name to its rejection. -/
structure ProcessResult where
  interval : Option Nat
  ruleStates : List RuleState
  retry : Bool
  passRules : List (String × List String)
  rejected : List (String × RejectInfo)
deriving DecidableEq, Repr

/-- Accumulator of the merge performed under the mutex in process. -/
structure MergeAcc where
  shouldRetry : Bool
  interval : Option Nat
  details : List (String × Detail)
  ruleStates : List RuleState
deriving DecidableEq, Repr

/-- One notification sink (workqueue.DelayingInterface): its
ShuttingDown flag and the keys added so far.  Keys are
(namespace, name) pairs. -/
structure Sink where
  shuttingDown : Bool
  queue : List (String × String)
deriving DecidableEq, Repr

/-- The fields of a selected pod the controller reads, together with the
response of PodVersionExpectation.SatisfiedExpectations for it. -/
structure Pod where
  name : String
  hasDeletionTimestamp : Bool
  satisfiedExpectation : Bool
deriving DecidableEq, Repr

/-- The fields of a RuleSet object the controller reads. -/
structure RuleSet where
  name : String
  ns : String
  hasDeletionTimestamp : Bool
  hasTerminatingLabel : Bool
  generation : Int
  status : RuleSetStatus
deriving DecidableEq, Repr

/-- Outcome of the initial r.Get of the RuleSet. -/
inductive GetRuleSetResult where
  | found (rs : RuleSet)
  | notFound
  | err
deriving Repr

/-- Outcome of the per-target r.Get inside cleanUpPod. -/
inductive GetPodResult where
  | found
  | notFound
  | err
deriving DecidableEq, Repr

/-- Observable side effects of one reconcile pass, in program order.
listPods is the selector-based List call; removeOwnership and
addOwnership are the updateRuleSetOnPod calls with MoveRulesetAnno and
AddRuleSetAnno respectively; invokeStage is the launch of one stage's
rule processor; expectUpdate, statusWrite and deleteExpectations are the
expectation-guard and status-write operations; addFinalizer and
removeFinalizer are the finalizer writes; warnEvent is the
BlockProtection event. -/
inductive Effect where
  | listPods
  | removeOwnership (pod : String)
  | addOwnership (pod : String)
  | invokeStage (stage : String)
  | expectUpdate
  | statusWrite
  | deleteExpectations
  | addFinalizer
  | removeFinalizer
  | warnEvent
deriving DecidableEq, Repr

/-- Environment of collaborator responses consumed by one reconcile
pass.  updatePodErr gives the outcome of the whole updateRuleSetOnPod
call for a pod name (the retry loop is verified separately on its own
embedding); sinks is the podEventQueues package variable. -/
structure Env where
  getRuleSet : GetRuleSetResult
  rsSatisfied : Bool
  listOk : Bool
  selectedPods : List Pod
  addFinalizerOk : Bool
  removeFinalizerOk : Bool
  getPodForCleanUp : String → GetPodResult
  updatePodErr : String → Option K8sErr
  stages : List (String × ProcessResult)
  statusWriteOk : Bool
  sinks : List Sink
  now : Nat

/-- Result of one reconcile pass: the reconcile.Result (requeue flag and
optional RequeueAfter), whether an error was returned, the effect
trace, and the final state of the notification sinks. -/
structure ReconcileOut where
  requeue : Bool
  requeueAfter : Option Nat
  error : Bool
  effects : List Effect
  sinks : List Sink
deriving DecidableEq, Repr

/-- Lookup in an association list embedding a Go map. -/
def mapLookup {β : Type} (m : List (String × β)) (k : String) : Option β :=
  match m with
  | [] => none
  | (k', v) :: rest => if k' = k then some v else mapLookup rest k

/-- Insert or overwrite in an association list embedding a Go map. -/
def mapInsert {β : Type} (m : List (String × β)) (k : String) (v : β) :
    List (String × β) :=
  match m with
  | [] => [(k, v)]
  | (k', v') :: rest =>
      if k' = k then (k, v) :: rest else (k', v') :: mapInsert rest k v

/-- Insert into a sets.String embedded as a duplicate-free list. -/
def setInsert (s : List String) (x : String) : List String :=
  if x ∈ s then s else s ++ [x]

/-- Lexicographic comparison of character lists, the order sort.Strings
sorts by. -/
def charListLe : List Char → List Char → Bool
  | [], _ => true
  | _ :: _, [] => false
  | a :: as, b :: bs =>
      if a < b then true else if b < a then false else charListLe as bs

/-- Lexicographic string comparison. -/
def strLe (a b : String) : Bool := charListLe a.data b.data

/-- Sorted insertion into a string list. -/
def orderedInsertStr (x : String) : List String → List String
  | [] => [x]
  | y :: ys => if strLe x y then x :: y :: ys else y :: orderedInsertStr x ys

/-- sort.Strings / the sorted List() of a sets.String: insertion sort by
the lexicographic order. -/
def sortStrings : List String → List String
  | [] => []
  | x :: xs => orderedInsertStr x (sortStrings xs)

/-- hasRunningPod: some selected pod has no deletion timestamp. -/
def hasRunningPod (pods : List Pod) : Bool :=
  pods.any fun p => !p.hasDeletionTimestamp

/-- The pod-expectation loop reaches the end without an early return. -/
def allPodsSatisfied (pods : List Pod) : Bool :=
  pods.all fun p => p.satisfiedExpectation

/-- selectedPodNames: the name set built by the pod loop. -/
def selectedNameSet (pods : List Pod) : List String :=
  pods.foldl (fun s p => setInsert s p.name) []

/-- targetPods: the name-to-pod map built from the listed pods. -/
def targetPodsMap (pods : List Pod) : List (String × Pod) :=
  pods.foldl (fun m p => mapInsert m p.name p) []

/-- oldDetails: the name-to-Detail map rebuilt from a stored status. -/
def detailsOfStatus (st : RuleSetStatus) : List (String × Detail) :=
  st.details.foldl (fun m d => mapInsert m d.name d) []

/-- The fresh Detail created when a target has no entry yet
(Go zero values for the remaining fields). -/
def freshDetail (po stage : String) : Detail :=
  { name := po, stage := stage, passed := false, passedRules := [],
    rejectInfo := [] }

/-- One iteration of the updateDetail loop body for target entry
(po, rules): look up a rejection, append the sorted passed-rule names,
append the RejectInfo if any, recompute Passed, store back. -/
def updateDetailOne (stage : String) (rejected : List (String × RejectInfo))
    (details : List (String × Detail)) (entry : String × List String) :
    List (String × Detail) :=
  let po := entry.1
  let rejectInfo : Option RejectInfo := mapLookup rejected po
  let d0 : Detail :=
    match mapLookup details po with
    | some d => d
    | none => freshDetail po stage
  let d1 : Detail := { d0 with passedRules := d0.passedRules ++ sortStrings entry.2 }
  let d2 : Detail :=
    match rejectInfo with
    | some r => { d1 with rejectInfo := d1.rejectInfo ++ [r] }
    | none => d1
  let d3 : Detail := { d2 with passed := d2.rejectInfo.isEmpty }
  mapInsert details po d3

/-- updateDetail: fold the loop body over the PassRules entries. -/
def updateDetail (details : List (String × Detail)) (res : ProcessResult)
    (stage : String) : List (String × Detail) :=
  res.passRules.foldl (updateDetailOne stage res.rejected) details

/-- The merge of one stage's result into the shared accumulator, as
performed inside the critical section of process. -/
def mergeStageResult (acc : MergeAcc) (stage : String) (res : ProcessResult) :
    MergeAcc :=
  let interval : Option Nat :=
    match res.interval with
    | none => acc.interval
    | some ri =>
        match acc.interval with
        | none => some ri
        | some ai => if ai > ri then some ri else some ai
  let ruleStates := acc.ruleStates ++ res.ruleStates
  let shouldRetry := if res.retry then true else acc.shouldRetry
  let details := updateDetail acc.details res stage
  { shouldRetry := shouldRetry, interval := interval, details := details,
    ruleStates := ruleStates }

/-- process: evaluate every configured stage and merge the results.
The goroutines merge under one mutex in nondeterministic completion
order; this embedding fixes the schedule that merges in stage order.
The merged interval, retry flag and details are independent of that
order; only the ruleStates concatenation order depends on it. -/
def process (stages : List (String × ProcessResult)) : MergeAcc :=
  stages.foldl (fun acc sr => mergeStageResult acc sr.1 sr.2)
    { shouldRetry := false, interval := none, details := [], ruleStates := [] }

/-- The invokeStage effects of launching every stage's processor. -/
def processEffects (stages : List (String × ProcessResult)) : List Effect :=
  stages.map fun sr => Effect.invokeStage sr.1

/-- equalStatus: field-wise deep equality on Targets, Details,
RuleStates and ObservedGeneration; UpdateTime is not compared. -/
def equalStatus (updated current : RuleSetStatus) : Bool :=
  decide (updated.targets = current.targets) &&
    decide (updated.details = current.details) &&
    decide (updated.ruleStates = current.ruleStates) &&
    decide (updated.observedGeneration = current.observedGeneration)

/-- The detailList built from the details map: values listed in sorted
key order. -/
def buildDetailList (details : List (String × Detail)) : List Detail :=
  (sortStrings (details.map Prod.fst)).filterMap fun k => mapLookup details k

/-- The newStatus snapshot built at the end of Reconcile: sorted target
names, current generation, sorted-by-key detail list, merged rule
states, current time. -/
def buildStatus (selectedNames : List String) (gen : Int)
    (details : List (String × Detail)) (ruleStates : List RuleState)
    (now : Nat) : RuleSetStatus :=
  { targets := sortStrings selectedNames
    observedGeneration := gen
    details := buildDetailList details
    ruleStates := ruleStates
    updateTime := some now }

/-- The status-update step of Reconcile: if the snapshot differs from
the stored status, register an expectation and write (deleting the
expectation again on write failure); otherwise do nothing.  Returns the
status object now carried by the in-memory RuleSet, the returned error,
and the effects. -/
def statusPhase (stored newStatus : RuleSetStatus) (writeOk : Bool) :
    RuleSetStatus × Option K8sErr × List Effect :=
  if !equalStatus newStatus stored then
    if writeOk then
      (newStatus, none, [Effect.expectUpdate, Effect.statusWrite])
    else
      (newStatus, some K8sErr.other,
        [Effect.expectUpdate, Effect.statusWrite, Effect.deleteExpectations])
  else
    (stored, none, [])

/-- addToEveryQueue: push (namespace, name) onto every sink that is not
shutting down. -/
def addToEveryQueue (qs : List Sink) (ns nm : String) : List Sink :=
  qs.map fun q =>
    if q.shuttingDown then q else { q with queue := q.queue ++ [(ns, nm)] }

/-- addQueues: enqueue every target name whose Detail changed between
oldDetails and details, including names present in only one map; a
no-op when no sink is registered. -/
def addQueues (ns : String) (qs : List Sink)
    (details oldDetails : List (String × Detail)) : List Sink :=
  if qs.isEmpty then qs
  else
    let qs1 := oldDetails.foldl (fun acc entry =>
      match mapLookup details entry.1 with
      | none => addToEveryQueue acc ns entry.1
      | some d => if d = entry.2 then acc else addToEveryQueue acc ns entry.1) qs
    details.foldl (fun acc entry =>
      match mapLookup oldDetails entry.1 with
      | none => addToEveryQueue acc ns entry.1
      | some _ => acc) qs1

/-- One attempt of the optimistic loop in updateRuleSetOnPod: the Get
outcome, whether the mutation function reported a change, and the
Update outcome. -/
structure Attempt where
  getErr : Option K8sErr
  fnChanged : Bool
  updateErr : Option K8sErr
deriving DecidableEq, Repr

/-- The closure passed to retry.RetryOnConflict in updateRuleSetOnPod,
translated statement by statement: a not-found Get is success, another
Get error is returned; when the mutation function reports a change the
pod is written and a not-found write is success — the write error is
checked only for not-found, every other write outcome falls through to
the final return nil. -/
def attemptBody (a : Attempt) : Option K8sErr :=
  match a.getErr with
  | some e => if e = K8sErr.notFound then none else some e
  | none =>
      if a.fnChanged then
        if a.updateErr = some K8sErr.notFound then none
        else none
      else none

/-- retry.RetryOnConflict with retry.DefaultRetry: run the body up to
the step budget, retrying only on a conflict error; exhausting the
budget returns the last conflict. -/
def retryOnConflict (attempts : Nat → Attempt) : Nat → Nat → Option K8sErr
  | 0, _ => some K8sErr.conflict
  | fuel + 1, i =>
      match attemptBody (attempts i) with
      | none => none
      | some K8sErr.conflict => retryOnConflict attempts fuel (i + 1)
      | some e => some e

/-- updateRuleSetOnPod: the optimistic loop with retry.DefaultRetry's
five steps, over the per-attempt collaborator outcomes. -/
def updateRuleSetOnPod (attempts : Nat → Attempt) : Option K8sErr :=
  retryOnConflict attempts 5 0

/-- cleanUpPod's loop over the recorded target names: a not-found Get
skips the target, another Get error aborts, otherwise the remove-
ownership mutation runs and its error aborts. -/
def cleanUpPodLoop (env : Env) : List String → List Effect →
    Option K8sErr × List Effect
  | [], acc => (none, acc)
  | nm :: rest, acc =>
      match env.getPodForCleanUp nm with
      | GetPodResult.notFound => cleanUpPodLoop env rest acc
      | GetPodResult.err => (some K8sErr.other, acc)
      | GetPodResult.found =>
          match env.updatePodErr nm with
          | some e => (some e, acc ++ [Effect.removeOwnership nm])
          | none => cleanUpPodLoop env rest (acc ++ [Effect.removeOwnership nm])

/-- The remove-unselected loop: every previously recorded target that is
no longer selected gets the remove-ownership mutation; an error aborts. -/
def removeUnselectedLoop (env : Env) (selectedNames : List String) :
    List String → List Effect → Option K8sErr × List Effect
  | [], acc => (none, acc)
  | nm :: rest, acc =>
      if nm ∈ selectedNames then removeUnselectedLoop env selectedNames rest acc
      else
        match env.updatePodErr nm with
        | some e => (some e, acc ++ [Effect.removeOwnership nm])
        | none =>
            removeUnselectedLoop env selectedNames rest
              (acc ++ [Effect.removeOwnership nm])

/-- The own-selected loop: every currently selected target gets the
add-ownership mutation; an error aborts. -/
def ownSelectedLoop (env : Env) : List (String × Pod) → List Effect →
    Option K8sErr × List Effect
  | [], acc => (none, acc)
  | (nm, _) :: rest, acc =>
      match env.updatePodErr nm with
      | some e => (some e, acc ++ [Effect.addOwnership nm])
      | none => ownSelectedLoop env rest (acc ++ [Effect.addOwnership nm])

/-- Five seconds in nanoseconds, the fixed blocked-deletion recheck
delay set on the named result variable. -/
def fiveSecondsNs : Nat := 5000000000

/-- The part of Reconcile after the deletion/finalizer block: the
pod-expectation gate, the ownership delta, stage processing, the status
update and the notification fan-out.  resultRequeueAfter is the
RequeueAfter carried by the named result variable, which the Go code
returns on ownership-mutation errors but discards on success. -/
def reconcileRest (env : Env) (rs : RuleSet) (pods : List Pod)
    (effs : List Effect) (resultRequeueAfter : Option Nat) : ReconcileOut :=
  if !allPodsSatisfied pods then
    { requeue := false, requeueAfter := none, error := false, effects := effs,
      sinks := env.sinks }
  else
    let selectedNames := selectedNameSet pods
    match removeUnselectedLoop env selectedNames rs.status.targets effs with
    | (some _, effs2) =>
        { requeue := false, requeueAfter := resultRequeueAfter, error := true,
          effects := effs2, sinks := env.sinks }
    | (none, effs2) =>
        match ownSelectedLoop env (targetPodsMap pods) effs2 with
        | (some _, effs3) =>
            { requeue := false, requeueAfter := resultRequeueAfter,
              error := true, effects := effs3, sinks := env.sinks }
        | (none, effs3) =>
            let acc := process env.stages
            let effs4 := effs3 ++ processEffects env.stages
            let newStatus := buildStatus selectedNames rs.generation
              acc.details acc.ruleStates env.now
            match statusPhase rs.status newStatus env.statusWriteOk with
            | (_, some _, seffs) =>
                { requeue := false, requeueAfter := none, error := true,
                  effects := effs4 ++ seffs, sinks := env.sinks }
            | (curStatus, none, seffs) =>
                let oldDetails := detailsOfStatus curStatus
                let sinks := addQueues rs.ns env.sinks acc.details oldDetails
                { requeue := acc.shouldRetry, requeueAfter := acc.interval,
                  error := false, effects := effs4 ++ seffs, sinks := sinks }

/-- Reconcile: the top-level pass.  Mirrors the Go function in source
order: fetch, expectation gate, list, the deletion/finalizer block
(cleanup-and-return when permitted, warn-and-fall-through when
blocked), then the rest of the pipeline. -/
def Reconcile (env : Env) : ReconcileOut :=
  match env.getRuleSet with
  | GetRuleSetResult.notFound =>
      { requeue := false, requeueAfter := none, error := false, effects := [],
        sinks := env.sinks }
  | GetRuleSetResult.err =>
      { requeue := false, requeueAfter := none, error := true, effects := [],
        sinks := env.sinks }
  | GetRuleSetResult.found rs =>
      if !env.rsSatisfied then
        { requeue := false, requeueAfter := none, error := false,
          effects := [], sinks := env.sinks }
      else if !env.listOk then
        { requeue := false, requeueAfter := none, error := true,
          effects := [Effect.listPods], sinks := env.sinks }
      else
        let effs0 := [Effect.listPods]
        let pods := env.selectedPods
        if rs.hasDeletionTimestamp then
          if rs.hasTerminatingLabel || !hasRunningPod pods then
            match cleanUpPodLoop env rs.status.targets effs0 with
            | (some _, effs) =>
                { requeue := false, requeueAfter := none, error := true,
                  effects := effs, sinks := env.sinks }
            | (none, effs) =>
                { requeue := false, requeueAfter := none,
                  error := !env.removeFinalizerOk,
                  effects := effs ++ [Effect.removeFinalizer],
                  sinks := env.sinks }
          else
            reconcileRest env rs pods (effs0 ++ [Effect.warnEvent])
              (some fiveSecondsNs)
        else
          if !env.addFinalizerOk then
            { requeue := false, requeueAfter := none, error := true,
              effects := effs0 ++ [Effect.addFinalizer], sinks := env.sinks }
          else
            reconcileRest env rs pods (effs0 ++ [Effect.addFinalizer]) none

/-! Spec-side definitions and concrete fixtures used by the claim
theorems. -/

/-- Stated from the spec's merge rule: the minimum of the non-null
interval values, null when none is reported. -/
def specMinInterval : List Nat → Option Nat
  | [] => none
  | x :: xs =>
      match specMinInterval xs with
      | none => some x
      | some m => some (min x m)

/-- Pointwise minimum of two optional intervals (helper for relating the
merge fold to specMinInterval). -/
def optMin : Option Nat → Option Nat → Option Nat
  | none, b => b
  | some a, none => some a
  | some a, some b => some (min a b)

/-- The effect trace contains only the selector List call, release-style
remove-ownership mutations, and the finalizer removal: no add-ownership
mutation, no stage invocation, no status write, no expectation change. -/
def releaseOnlyEffects (effs : List Effect) : Bool :=
  effs.all fun e =>
    match e with
    | Effect.listPods => true
    | Effect.removeOwnership _ => true
    | Effect.removeFinalizer => true
    | _ => false

/-- The details map holds a Detail for the target whose RejectInfo list
contains the given rejection. -/
def detailRecordsReject (m : List (String × Detail)) (po : String)
    (rj : RejectInfo) : Bool :=
  match mapLookup m po with
  | some d => decide (rj ∈ d.rejectInfo)
  | none => false

/-- An empty stored status. -/
def emptyStatus : RuleSetStatus :=
  { targets := [], observedGeneration := 0, details := [], ruleStates := [],
    updateTime := none }

/-- A RuleSet marked for deletion without the force-terminate label. -/
def rsBlocked : RuleSet :=
  { name := "rs1", ns := "default", hasDeletionTimestamp := true,
    hasTerminatingLabel := false, generation := 1, status := emptyStatus }

/-- Environment for the blocked-deletion pass: one running selected pod
with no deletion timestamp, expectations satisfied, one stage
configured. -/
def envBlocked : Env :=
  { getRuleSet := GetRuleSetResult.found rsBlocked
    rsSatisfied := true
    listOk := true
    selectedPods := [{ name := "p1", hasDeletionTimestamp := false,
                       satisfiedExpectation := true }]
    addFinalizerOk := true
    removeFinalizerOk := true
    getPodForCleanUp := fun _ => GetPodResult.notFound
    updatePodErr := fun _ => none
    stages := [("s1", { interval := none, ruleStates := [], retry := false,
                        passRules := [("p1", ["rule1"])], rejected := [] })]
    statusWriteOk := true
    sinks := []
    now := 42 }

/-- A RuleSet marked for deletion whose force-terminate label is set,
with one recorded target. -/
def rsCleanup : RuleSet :=
  { name := "rs2", ns := "default", hasDeletionTimestamp := true,
    hasTerminatingLabel := true, generation := 1,
    status := { emptyStatus with targets := ["t1"] } }

/-- Environment for the permitted-cleanup pass over rsCleanup. -/
def envCleanup : Env :=
  { envBlocked with
    getRuleSet := GetRuleSetResult.found rsCleanup
    getPodForCleanUp := fun _ => GetPodResult.found }

/-- Previously stored Detail for target A: passed. -/
def detailA : Detail :=
  { name := "A", stage := "s1", passed := true, passedRules := ["r1"],
    rejectInfo := [] }

/-- Previously stored Detail for target B: rejected. -/
def detailBRejected : Detail :=
  { name := "B", stage := "s1", passed := false, passedRules := [],
    rejectInfo := [{ ruleName := "r1", reason := "bad" }] }

/-- The stored status with Details for A (passed) and B (rejected). -/
def storedStatusAB : RuleSetStatus :=
  { targets := ["A", "B"], observedGeneration := 1,
    details := [detailA, detailBRejected], ruleStates := [],
    updateTime := some 1 }

/-- A live RuleSet whose stored status is storedStatusAB. -/
def rsNotify : RuleSet :=
  { name := "rs3", ns := "default", hasDeletionTimestamp := false,
    hasTerminatingLabel := false, generation := 1, status := storedStatusAB }

/-- Environment in which the new selection is {A, C}, both passing, so
the new Details are {A: passed, C: passed} against stored
{A: passed, B: rejected}; one live notification sink is registered. -/
def envNotify : Env :=
  { getRuleSet := GetRuleSetResult.found rsNotify
    rsSatisfied := true
    listOk := true
    selectedPods := [{ name := "A", hasDeletionTimestamp := false,
                       satisfiedExpectation := true },
                     { name := "C", hasDeletionTimestamp := false,
                       satisfiedExpectation := true }]
    addFinalizerOk := true
    removeFinalizerOk := true
    getPodForCleanUp := fun _ => GetPodResult.notFound
    updatePodErr := fun _ => none
    stages := [("s1", { interval := none, ruleStates := [], retry := false,
                        passRules := [("A", ["r1"]), ("C", ["r1"])],
                        rejected := [] })]
    statusWriteOk := true
    sinks := [{ shuttingDown := false, queue := [] }]
    now := 42 }

/-- Stage results reporting intervals of 2s, 5s and null and Retry flags
false, true, false. -/
def mergeExampleStages : List (String × ProcessResult) :=
  [("a", { interval := some 2000000000, ruleStates := ["sa"], retry := false,
           passRules := [], rejected := [] }),
   ("b", { interval := some 5000000000, ruleStates := ["sb"], retry := true,
           passRules := [], rejected := [] }),
   ("c", { interval := none, ruleStates := [], retry := false,
           passRules := [], rejected := [] })]

/-- The rejection reported for target X. -/
def rjX : RejectInfo := { ruleName := "r1", reason := "denied" }

/-- A StageResult that rejects target X without listing it in the
PassRules mapping. -/
def rejectedOnlyResult : ProcessResult :=
  { interval := none, ruleStates := [], retry := false, passRules := [],
    rejected := [("X", rjX)] }

/-- A StageResult that rejects target X and lists it in PassRules. -/
def rejectedWithPassResult : ProcessResult :=
  { interval := none, ruleStates := [], retry := false,
    passRules := [("X", ["r2"])], rejected := [("X", rjX)] }

/-- The Detail computed for target X by merging rejectedWithPassResult. -/
def detailXRejected : Detail :=
  { name := "X", stage := "s1", passed := false, passedRules := ["r2"],
    rejectInfo := [rjX] }

/-! Claim theorems. -/

/-- C10: if the policy object does not exist in the store when the
reconcile entry point fetches it, the pass returns success with no
requeue and performs no selection, no target mutation, no status write,
and no notification enqueue (empty effect trace, sinks untouched). -/
theorem reconcile_notfound_noop (env : Env)
    (h : env.getRuleSet = GetRuleSetResult.notFound) :
    Reconcile env =
      { requeue := false, requeueAfter := none, error := false, effects := [],
        sinks := env.sinks } := by
  unfold Reconcile
  rw [h]

/-- Witness for reconcile_notfound_noop at a concrete environment. -/
theorem reconcile_notfound_noop_witness :
    Reconcile { envBlocked with getRuleSet := GetRuleSetResult.notFound } =
      { requeue := false, requeueAfter := none, error := false, effects := [],
        sinks := [] } :=
  reconcile_notfound_noop
    { envBlocked with getRuleSet := GetRuleSetResult.notFound } rfl

/-- C4: if SatisfiedExpectations returns false for the policy identity,
the pass performs no selection, no ownership mutation and no status
write (empty effect trace, sinks untouched) and returns a non-error
no-op result. -/
theorem reconcile_stale_view_noop (env : Env) (rs : RuleSet)
    (hget : env.getRuleSet = GetRuleSetResult.found rs)
    (hsat : env.rsSatisfied = false) :
    Reconcile env =
      { requeue := false, requeueAfter := none, error := false, effects := [],
        sinks := env.sinks } := by
  unfold Reconcile
  rw [hget]
  simp [hsat]

/-- Witness for reconcile_stale_view_noop at a concrete environment. -/
theorem reconcile_stale_view_noop_witness :
    Reconcile { envBlocked with rsSatisfied := false } =
      { requeue := false, requeueAfter := none, error := false, effects := [],
        sinks := [] } :=
  reconcile_stale_view_noop { envBlocked with rsSatisfied := false } rsBlocked
    rfl rfl

/-- C2 (code bug): the ownership-mutation loop swallows write errors.
When the fetch succeeds and the mutation function reports a change, a
conflict or any other error returned by the pod write is discarded and
updateRuleSetOnPod reports success after a single attempt, with no retry
and no error surfaced to the caller; only fetch errors behave as the
claim states (not-found is success, others are returned). -/
theorem updateRuleSetOnPod_swallows_write_error :
    updateRuleSetOnPod (fun _ =>
      { getErr := none, fnChanged := true,
        updateErr := some K8sErr.conflict }) = none ∧
    updateRuleSetOnPod (fun _ =>
      { getErr := none, fnChanged := true,
        updateErr := some K8sErr.other }) = none ∧
    updateRuleSetOnPod (fun _ =>
      { getErr := some K8sErr.other,
        fnChanged := false, updateErr := none }) = some K8sErr.other ∧
    updateRuleSetOnPod (fun _ =>
      { getErr := some K8sErr.notFound,
        fnChanged := false, updateErr := none }) = none :=
  ⟨rfl, rfl, rfl, rfl⟩

/-- C1 counterexample: a policy with the deletion marker set whose
cleanup is blocked (a running selected target, no force-terminate
label) does not skip the pipeline — the pass performs the add-ownership
mutation on the target and invokes the rule stage. -/
theorem reconcile_blocked_deletion_runs_pipeline :
    envBlocked.getRuleSet = GetRuleSetResult.found rsBlocked ∧
    rsBlocked.hasDeletionTimestamp = true ∧
    rsBlocked.hasTerminatingLabel = false ∧
    hasRunningPod envBlocked.selectedPods = true ∧
    Effect.addOwnership "p1" ∈ (Reconcile envBlocked).effects ∧
    Effect.invokeStage "s1" ∈ (Reconcile envBlocked).effects := by
  refine ⟨rfl, rfl, rfl, rfl, ?_, ?_⟩ <;> decide

/-- C3 (code bug): with stored Details {A: passed, B: rejected} and new
Details {A: passed, C: passed} the pass writes the status, yet the
notifier enqueues nothing — oldDetails is rebuilt from ruleSet.Status
after it was overwritten with the new status, so the diff is empty.
Fed the genuinely old Details, addQueues would enqueue exactly B and C
onto the registered sink. -/
theorem notifier_diff_lost_after_status_overwrite :
    Effect.statusWrite ∈ (Reconcile envNotify).effects ∧
    (Reconcile envNotify).sinks = [{ shuttingDown := false, queue := [] }] ∧
    addQueues "default" [{ shuttingDown := false, queue := [] }]
        (process envNotify.stages).details (detailsOfStatus storedStatusAB) =
      [{ shuttingDown := false,
         queue := [("default", "B"), ("default", "C")] }] := by
  refine ⟨by decide, by decide, by decide⟩

/-- Effects appended by the cleanup loop keep the trace release-only. -/
theorem cleanUpPodLoop_releaseOnly (env : Env) (ts : List String) :
    ∀ acc : List Effect, releaseOnlyEffects acc = true →
      releaseOnlyEffects (cleanUpPodLoop env ts acc).2 = true := by
  induction ts with
  | nil => intro acc h; exact h
  | cons nm rest ih =>
      intro acc h
      unfold cleanUpPodLoop
      rcases hg : env.getPodForCleanUp nm with _ | _ | _
      · simp only []
        rcases hu : env.updatePodErr nm with _ | e
        · exact ih _ (by simpa [releaseOnlyEffects, List.all_append] using h)
        · simpa [releaseOnlyEffects, List.all_append] using h
      · exact ih acc h
      · exact h

/-- C1 (amended): when the deletion marker is set and cleanup is
permitted (force-terminate label present, or no selected target
running), the ownership-claim and stage-evaluation steps are skipped
entirely — the trace holds no add-ownership mutation and no stage
invocation, only the List call, release-style remove-ownership
mutations and the finalizer removal, and no notification is enqueued.
When cleanup is blocked the pass instead falls through to the full
pipeline (see the counterexample). -/
theorem reconcile_deletion_cleanup_skips_pipeline (env : Env) (rs : RuleSet)
    (hget : env.getRuleSet = GetRuleSetResult.found rs)
    (hdel : rs.hasDeletionTimestamp = true)
    (hperm : (rs.hasTerminatingLabel || !hasRunningPod env.selectedPods)
        = true) :
    releaseOnlyEffects (Reconcile env).effects = true ∧
    (Reconcile env).sinks = env.sinks := by
  unfold Reconcile
  rw [hget]
  by_cases hsat : env.rsSatisfied
  · by_cases hlist : env.listOk
    · simp only [hsat, hlist, Bool.not_true, if_false, hdel, hperm, if_true]
      rcases hcl : cleanUpPodLoop env rs.status.targets [Effect.listPods]
        with ⟨oerr, effs⟩
      have heffs : releaseOnlyEffects effs = true := by
        have := cleanUpPodLoop_releaseOnly env rs.status.targets
          [Effect.listPods] (by decide)
        rw [hcl] at this
        exact this
      cases oerr
      · constructor
        · simpa [releaseOnlyEffects, List.all_append,
            releaseOnlyEffects] using heffs
        · rfl
      · exact ⟨heffs, rfl⟩
    · simp [hsat, hlist, releaseOnlyEffects]
  · simp [hsat, releaseOnlyEffects]

/-- Witness for reconcile_deletion_cleanup_skips_pipeline: a policy
with the force-terminate label and one recorded target. -/
theorem reconcile_deletion_cleanup_skips_pipeline_witness :
    releaseOnlyEffects (Reconcile envCleanup).effects = true ∧
    (Reconcile envCleanup).sinks = envCleanup.sinks :=
  reconcile_deletion_cleanup_skips_pipeline envCleanup rsCleanup rfl rfl rfl

/-- The interval merge step is the pointwise optional minimum. -/
theorem mergeStageResult_interval (acc : MergeAcc) (stage : String)
    (res : ProcessResult) :
    (mergeStageResult acc stage res).interval =
      optMin acc.interval res.interval := by
  rcases hri : res.interval with _ | ri
  · rcases hai : acc.interval with _ | ai <;>
      simp [mergeStageResult, optMin, hri, hai]
  · rcases hai : acc.interval with _ | ai
    · simp [mergeStageResult, optMin, hri, hai]
    · simp only [mergeStageResult, optMin, hri, hai]
      by_cases hgt : ai > ri
      · rw [if_pos hgt]
        congr 1
        omega
      · rw [if_neg hgt]
        congr 1
        omega

/-- The retry merge step is the boolean or. -/
theorem mergeStageResult_retry (acc : MergeAcc) (stage : String)
    (res : ProcessResult) :
    (mergeStageResult acc stage res).shouldRetry =
      (acc.shouldRetry || res.retry) := by
  rcases hr : res.retry <;> simp [mergeStageResult, hr]

/-- The ruleStates merge step is list append. -/
theorem mergeStageResult_ruleStates (acc : MergeAcc) (stage : String)
    (res : ProcessResult) :
    (mergeStageResult acc stage res).ruleStates =
      acc.ruleStates ++ res.ruleStates := by
  simp [mergeStageResult]

/-- Unfolding rule for specMinInterval on a cons cell. -/
theorem specMinInterval_cons (x : Nat) (xs : List Nat) :
    specMinInterval (x :: xs) = optMin (some x) (specMinInterval xs) := by
  cases h : specMinInterval xs <;> simp [specMinInterval, optMin, h]

/-- optMin has none as a right identity. -/
theorem optMin_none_right (a : Option Nat) : optMin a none = a := by
  cases a <;> rfl

/-- optMin is associative. -/
theorem optMin_assoc (a b c : Option Nat) :
    optMin (optMin a b) c = optMin a (optMin b c) := by
  cases a <;> cases b <;> cases c <;> simp [optMin, Nat.min_assoc]

/-- The interval accumulated by the merge fold is the optional minimum
of the accumulator's interval and the non-null stage intervals. -/
theorem process_foldl_interval (stages : List (String × ProcessResult)) :
    ∀ acc : MergeAcc,
      (stages.foldl (fun a sr => mergeStageResult a sr.1 sr.2) acc).interval =
        optMin acc.interval
          (specMinInterval (stages.filterMap fun sr => sr.2.interval)) := by
  induction stages with
  | nil => intro acc; simp [specMinInterval, optMin_none_right]
  | cons hd tl ih =>
      intro acc
      rw [List.foldl_cons, ih, mergeStageResult_interval]
      rcases h : hd.2.interval with _ | ri
      · simp [List.filterMap_cons, h, optMin_none_right]
      · simp only [List.filterMap_cons, h]
        rw [specMinInterval_cons, ← optMin_assoc]

/-- The retry flag accumulated by the merge fold is the or of the
accumulator's flag and the stage flags. -/
theorem process_foldl_retry (stages : List (String × ProcessResult)) :
    ∀ acc : MergeAcc,
      (stages.foldl (fun a sr => mergeStageResult a sr.1 sr.2)
          acc).shouldRetry =
        (acc.shouldRetry || stages.any fun sr => sr.2.retry) := by
  induction stages with
  | nil => intro acc; simp
  | cons hd tl ih =>
      intro acc
      rw [List.foldl_cons, ih, mergeStageResult_retry]
      simp [Bool.or_assoc]

/-- The ruleStates accumulated by the merge fold are the accumulator's
followed by the concatenation of the stage lists. -/
theorem process_foldl_ruleStates (stages : List (String × ProcessResult)) :
    ∀ acc : MergeAcc,
      (stages.foldl (fun a sr => mergeStageResult a sr.1 sr.2)
          acc).ruleStates =
        acc.ruleStates ++ (stages.map fun sr => sr.2.ruleStates).flatten := by
  induction stages with
  | nil => intro acc; simp
  | cons hd tl ih =>
      intro acc
      rw [List.foldl_cons, ih, mergeStageResult_ruleStates]
      simp

/-- C6: the merged interval is the minimum of the non-null stage
intervals (null if none is reported), the merged retry flag is the or
of the stage Retry flags, and the merged ruleStates are the
concatenation of the stage RuleStates; in particular intervals
{2s, 5s, null} merge to 2s and Retry flags {false, true, false} merge
to true. -/
theorem stage_merge_correct (stages : List (String × ProcessResult)) :
    (process stages).interval =
      specMinInterval (stages.filterMap fun sr => sr.2.interval) ∧
    (process stages).shouldRetry = (stages.any fun sr => sr.2.retry) ∧
    (process stages).ruleStates =
      (stages.map fun sr => sr.2.ruleStates).flatten ∧
    (process mergeExampleStages).interval = some 2000000000 ∧
    (process mergeExampleStages).shouldRetry = true := by
  refine ⟨?_, ?_, ?_, by decide, by decide⟩
  · unfold process
    rw [process_foldl_interval]
    rfl
  · unfold process
    rw [process_foldl_retry]
    simp
  · unfold process
    rw [process_foldl_ruleStates]
    simp

/-- The details merge step is updateDetail. -/
theorem mergeStageResult_details (acc : MergeAcc) (stage : String)
    (res : ProcessResult) :
    (mergeStageResult acc stage res).details =
      updateDetail acc.details res stage := by
  simp [mergeStageResult]

/-- Membership after a map insert: the new pair, or an old one. -/
theorem mem_mapInsert {β : Type} (m : List (String × β)) (k : String) (v : β)
    (p : String × β) (h : p ∈ mapInsert m k v) : p = (k, v) ∨ p ∈ m := by
  induction m with
  | nil =>
      simp [mapInsert] at h
      exact Or.inl h
  | cons hd tl ih =>
      rcases hd with ⟨k', v'⟩
      unfold mapInsert at h
      by_cases hk : k' = k
      · rw [if_pos hk] at h
        rcases List.mem_cons.mp h with h1 | h1
        · exact Or.inl h1
        · exact Or.inr (List.mem_cons_of_mem _ h1)
      · rw [if_neg hk] at h
        rcases List.mem_cons.mp h with h1 | h1
        · exact Or.inr (h1 ▸ List.mem_cons_self _ _)
        · rcases ih h1 with h2 | h2
          · exact Or.inl h2
          · exact Or.inr (List.mem_cons_of_mem _ h2)

/-- One updateDetail iteration preserves the Passed invariant: every
stored Detail has Passed equal to the emptiness of its RejectInfo. -/
theorem updateDetailOne_passed_inv (stage : String)
    (rejected : List (String × RejectInfo))
    (details : List (String × Detail)) (entry : String × List String)
    (h : ∀ p ∈ details, p.2.passed = p.2.rejectInfo.isEmpty) :
    ∀ p ∈ updateDetailOne stage rejected details entry,
      p.2.passed = p.2.rejectInfo.isEmpty := by
  intro p hp
  simp only [updateDetailOne] at hp
  rcases mem_mapInsert _ _ _ _ hp with h1 | h1
  · rw [h1]
  · exact h p h1

/-- The updateDetail fold preserves the Passed invariant. -/
theorem updateDetail_foldl_passed_inv (stage : String)
    (rejected : List (String × RejectInfo)) :
    ∀ (l : List (String × List String)) (details : List (String × Detail)),
      (∀ p ∈ details, p.2.passed = p.2.rejectInfo.isEmpty) →
      ∀ p ∈ l.foldl (updateDetailOne stage rejected) details,
        p.2.passed = p.2.rejectInfo.isEmpty := by
  intro l
  induction l with
  | nil => intro details h; exact h
  | cons hd tl ih =>
      intro details h
      rw [List.foldl_cons]
      exact ih _ (updateDetailOne_passed_inv _ _ _ _ h)

/-- The stage-merge fold preserves the Passed invariant of the details
accumulator. -/
theorem process_foldl_passed_inv (stages : List (String × ProcessResult)) :
    ∀ acc : MergeAcc,
      (∀ p ∈ acc.details, p.2.passed = p.2.rejectInfo.isEmpty) →
      ∀ p ∈ (stages.foldl (fun a sr => mergeStageResult a sr.1 sr.2)
          acc).details,
        p.2.passed = p.2.rejectInfo.isEmpty := by
  induction stages with
  | nil => intro acc h; exact h
  | cons hd tl ih =>
      intro acc h
      rw [List.foldl_cons]
      apply ih
      rw [mergeStageResult_details]
      exact updateDetail_foldl_passed_inv _ _ _ _ h

/-- C7: in the details map produced by the merge, every Detail has
Passed true exactly when its RejectInfo list is empty; a target
rejected by any stage therefore stays failed for the whole pass. -/
theorem detail_passed_iff_no_reject (stages : List (String × ProcessResult))
    (k : String) (d : Detail) (h : (k, d) ∈ (process stages).details) :
    d.passed = true ↔ d.rejectInfo = [] := by
  unfold process at h
  have hinv := process_foldl_passed_inv stages
    { shouldRetry := false, interval := none, details := [], ruleStates := [] }
    (by simp) (k, d) h
  rw [hinv]
  exact List.isEmpty_iff

/-- Witness for detail_passed_iff_no_reject: the Detail computed for the
rejected target X. -/
theorem detail_passed_iff_no_reject_witness :
    detailXRejected.passed = true ↔ detailXRejected.rejectInfo = [] :=
  detail_passed_iff_no_reject [("s1", rejectedWithPassResult)] "X"
    detailXRejected (by decide)

/-- Looking up the key just inserted returns the inserted value. -/
theorem mapLookup_mapInsert_self {β : Type} (m : List (String × β))
    (k : String) (v : β) : mapLookup (mapInsert m k v) k = some v := by
  induction m with
  | nil => simp [mapInsert, mapLookup]
  | cons hd tl ih =>
      rcases hd with ⟨k0, v0⟩
      unfold mapInsert
      by_cases hk : k0 = k
      · rw [if_pos hk]
        simp [mapLookup]
      · rw [if_neg hk]
        simp [mapLookup, hk]
        exact ih

/-- Looking up a different key is unchanged by an insert. -/
theorem mapLookup_mapInsert_other {β : Type} (m : List (String × β))
    (k k' : String) (v : β) (hne : k ≠ k') :
    mapLookup (mapInsert m k v) k' = mapLookup m k' := by
  induction m with
  | nil => simp [mapInsert, mapLookup, hne]
  | cons hd tl ih =>
      rcases hd with ⟨k0, v0⟩
      unfold mapInsert
      by_cases hk : k0 = k
      · rw [if_pos hk]
        have h0 : ¬ k0 = k' := by rw [hk]; exact hne
        simp [mapLookup, hne, h0]
      · rw [if_neg hk]
        by_cases h0 : k0 = k'
        · simp [mapLookup, h0]
        · simp [mapLookup, h0, ih]

/-- One updateDetail iteration for another target leaves a target's
lookup unchanged. -/
theorem updateDetailOne_lookup_other (stage : String)
    (rejected : List (String × RejectInfo))
    (details : List (String × Detail)) (entry : String × List String)
    (po : String) (hne : entry.1 ≠ po) :
    mapLookup (updateDetailOne stage rejected details entry) po =
      mapLookup details po := by
  simp only [updateDetailOne]
  exact mapLookup_mapInsert_other _ _ _ _ hne

/-- The updateDetail iteration for a rejected target appends its
RejectInfo entry to that target's Detail. -/
theorem updateDetailOne_lookup_reject (stage : String)
    (rejected : List (String × RejectInfo))
    (details : List (String × Detail)) (po : String) (rules : List String)
    (rj : RejectInfo) (hrej : mapLookup rejected po = some rj) :
    ∃ d, mapLookup (updateDetailOne stage rejected details (po, rules)) po =
        some d ∧ rj ∈ d.rejectInfo := by
  simp only [updateDetailOne, hrej]
  rw [mapLookup_mapInsert_self]
  exact ⟨_, rfl, by simp⟩

/-- Folding updateDetail iterations whose targets all differ from a
given target leaves that target's lookup unchanged. -/
theorem updateDetail_foldl_lookup_frozen (stage : String)
    (rejected : List (String × RejectInfo)) (po : String) :
    ∀ (l : List (String × List String)) (details : List (String × Detail)),
      (∀ e ∈ l, e.1 ≠ po) →
      mapLookup (l.foldl (updateDetailOne stage rejected) details) po =
        mapLookup details po := by
  intro l
  induction l with
  | nil => intro details _; rfl
  | cons hd tl ih =>
      intro details h
      rw [List.foldl_cons,
        ih _ (fun e he => h e (List.mem_cons_of_mem _ he)),
        updateDetailOne_lookup_other _ _ _ _ _ (h hd (List.mem_cons_self _ _))]

/-- C8 counterexample: a StageResult whose Rejected mapping holds target
X while its PassRules mapping is empty produces an empty details map —
the rejected target gets no Detail at all, so no RejectInfo entry is
recorded for it. -/
theorem rejected_target_without_passrules_unrecorded :
    mapLookup rejectedOnlyResult.rejected "X" = some rjX ∧
    (process [("s1", rejectedOnlyResult)]).details = [] ∧
    detailRecordsReject (process [("s1", rejectedOnlyResult)]).details "X" rjX
      = false := by
  refine ⟨rfl, rfl, rfl⟩

/-- C8 (amended): for every target that appears in the stage's PassRules
mapping and for which the stage reports a rejection, the merge appends a
RejectInfo entry for that target — after updateDetail its Detail records
the rejection.  A target present only in the Rejected mapping gets no
Detail (see the counterexample). -/
theorem merge_records_rejection (details : List (String × Detail))
    (res : ProcessResult) (stage po : String) (rules : List String)
    (rj : RejectInfo) (hnd : (res.passRules.map Prod.fst).Nodup)
    (hmem : (po, rules) ∈ res.passRules)
    (hrej : mapLookup res.rejected po = some rj) :
    detailRecordsReject (updateDetail details res stage) po rj = true := by
  obtain ⟨l1, l2, hsplit⟩ := List.append_of_mem hmem
  have hpo : po ∉ l2.map Prod.fst := by
    rw [hsplit] at hnd
    simp only [List.map_append, List.map_cons, List.nodup_append,
      List.nodup_cons] at hnd
    exact hnd.2.1.1
  have hl2 : ∀ e ∈ l2, e.1 ≠ po := by
    intro e he heq
    exact hpo (heq ▸ List.mem_map_of_mem Prod.fst he)
  obtain ⟨d, hd, hdm⟩ := updateDetailOne_lookup_reject stage res.rejected
    (l1.foldl (updateDetailOne stage res.rejected) details) po rules rj hrej
  unfold updateDetail
  rw [hsplit, List.foldl_append, List.foldl_cons]
  unfold detailRecordsReject
  rw [updateDetail_foldl_lookup_frozen _ _ _ l2 _ hl2, hd]
  simpa using hdm

/-- Witness for merge_records_rejection: the stage that rejects X and
lists it in PassRules. -/
theorem merge_records_rejection_witness :
    detailRecordsReject (updateDetail [] rejectedWithPassResult "s1") "X" rjX
      = true :=
  merge_records_rejection [] rejectedWithPassResult "s1" "X" ["r2"] rjX
    (by decide) (by decide) (by decide)

/-- Two snapshots built from the same inputs at different times compare
equal under equalStatus (the timestamp is excluded from comparison). -/
theorem equalStatus_buildStatus_self (names : List String) (gen : Int)
    (dl : List (String × Detail)) (rstates : List RuleState) (t1 t2 : Nat) :
    equalStatus (buildStatus names gen dl rstates t2)
      (buildStatus names gen dl rstates t1) = true := by
  simp [equalStatus, buildStatus]

/-- C5: the Status Reconciler is idempotent.  If the built snapshot
equals the stored status under field-wise equality on Targets, Details,
RuleStates and ObservedGeneration — the timestamp excluded — then no
status write is performed and no expectation is registered or deleted;
and running the status step twice on snapshots built from the same
inputs (differing only in timestamp) performs no write and no
expectation change on the second run. -/
theorem status_reconciler_idempotent (stored : RuleSetStatus)
    (names : List String) (gen : Int) (dl : List (String × Detail))
    (rstates : List RuleState) (t1 t2 : Nat) (ok ok2 : Bool) :
    (equalStatus (buildStatus names gen dl rstates t1) stored = true →
      statusPhase stored (buildStatus names gen dl rstates t1) ok =
        (stored, none, [])) ∧
    statusPhase
        (statusPhase stored (buildStatus names gen dl rstates t1) true).1
        (buildStatus names gen dl rstates t2) ok2 =
      ((statusPhase stored (buildStatus names gen dl rstates t1) true).1,
        none, []) := by
  constructor
  · intro heq
    unfold statusPhase
    rw [heq]
    rfl
  · cases heq : equalStatus (buildStatus names gen dl rstates t1) stored with
    | true =>
        have h1 : (statusPhase stored (buildStatus names gen dl rstates t1)
            true).1 = stored := by
          unfold statusPhase
          rw [heq]
          rfl
        rw [h1]
        unfold statusPhase
        rw [show equalStatus (buildStatus names gen dl rstates t2) stored
          = true from heq]
        rfl
    | false =>
        have h1 : (statusPhase stored (buildStatus names gen dl rstates t1)
            true).1 = buildStatus names gen dl rstates t1 := by
          unfold statusPhase
          rw [heq]
          rfl
        rw [h1]
        unfold statusPhase
        rw [equalStatus_buildStatus_self]
        rfl

/-- Witness for status_reconciler_idempotent: an equal stored status is
left alone, and a second build over the same inputs writes nothing. -/
theorem status_reconciler_idempotent_witness :
    statusPhase (buildStatus ["A"] 1 [] [] 3) (buildStatus ["A"] 1 [] [] 7)
        true = (buildStatus ["A"] 1 [] [] 3, none, []) ∧
    statusPhase
        (statusPhase (buildStatus ["A"] 1 [] [] 3)
          (buildStatus ["A"] 1 [] [] 7) true).1
        (buildStatus ["A"] 1 [] [] 9) false =
      ((statusPhase (buildStatus ["A"] 1 [] [] 3)
          (buildStatus ["A"] 1 [] [] 7) true).1, none, []) :=
  ⟨(status_reconciler_idempotent (buildStatus ["A"] 1 [] [] 3) ["A"] 1 [] []
      7 9 true false).1 (by decide),
   (status_reconciler_idempotent (buildStatus ["A"] 1 [] [] 3) ["A"] 1 [] []
      7 9 true false).2⟩

/-- Unfolding of charListLe on two cons cells. -/
theorem charListLe_cons_iff (a b : Char) (as bs : List Char) :
    charListLe (a :: as) (b :: bs) = true ↔
      a < b ∨ (a = b ∧ charListLe as bs = true) := by
  rcases lt_trichotomy a b with h | h | h
  · simp [charListLe, h]
  · subst h
    simp [charListLe, lt_irrefl]
  · have h1 : ¬ a < b := asymm h
    have h2 : a ≠ b := ne_of_gt h
    simp [charListLe, h, h1, h2]

/-- The lexicographic character-list order is total. -/
theorem charListLe_total : ∀ as bs : List Char,
    charListLe as bs = true ∨ charListLe bs as = true
  | [], _ => Or.inl rfl
  | _ :: _, [] => Or.inr rfl
  | a :: as, b :: bs => by
      rcases lt_trichotomy a b with h | h | h
      · exact Or.inl ((charListLe_cons_iff a b as bs).mpr (Or.inl h))
      · subst h
        rcases charListLe_total as bs with h1 | h1
        · exact Or.inl ((charListLe_cons_iff _ _ _ _).mpr (Or.inr ⟨rfl, h1⟩))
        · exact Or.inr ((charListLe_cons_iff _ _ _ _).mpr (Or.inr ⟨rfl, h1⟩))
      · exact Or.inr ((charListLe_cons_iff b a bs as).mpr (Or.inl h))

/-- The lexicographic character-list order is transitive. -/
theorem charListLe_trans : ∀ as bs cs : List Char,
    charListLe as bs = true → charListLe bs cs = true →
      charListLe as cs = true
  | [], _, _, _, _ => rfl
  | _ :: _, [], _, h1, _ => by simp [charListLe] at h1
  | _ :: _, _ :: _, [], _, h2 => by simp [charListLe] at h2
  | a :: as, b :: bs, c :: cs, h1, h2 => by
      rw [charListLe_cons_iff] at h1 h2 ⊢
      rcases h1 with h1 | ⟨rfl, h1⟩
      · rcases h2 with h2 | ⟨rfl, h2⟩
        · exact Or.inl (lt_trans h1 h2)
        · exact Or.inl h1
      · rcases h2 with h2 | ⟨rfl, h2⟩
        · exact Or.inl h2
        · exact Or.inr ⟨rfl, charListLe_trans as bs cs h1 h2⟩

/-- The lexicographic character-list order is antisymmetric. -/
theorem charListLe_antisymm : ∀ as bs : List Char,
    charListLe as bs = true → charListLe bs as = true → as = bs
  | [], [], _, _ => rfl
  | [], _ :: _, _, h2 => by simp [charListLe] at h2
  | _ :: _, [], h1, _ => by simp [charListLe] at h1
  | a :: as, b :: bs, h1, h2 => by
      rw [charListLe_cons_iff] at h1 h2
      rcases h1 with h1 | ⟨rfl, h1⟩
      · rcases h2 with h2 | ⟨heq, h2⟩
        · exact absurd (lt_trans h1 h2) (lt_irrefl a)
        · rw [heq] at h1
          exact absurd h1 (lt_irrefl _)
      · rcases h2 with h2 | ⟨heq, h2⟩
        · exact absurd h2 (lt_irrefl _)
        · rw [charListLe_antisymm as bs h1 h2]

/-- strLe is total. -/
theorem strLe_total (a b : String) : strLe a b = true ∨ strLe b a = true :=
  charListLe_total a.data b.data

/-- strLe is transitive. -/
theorem strLe_trans (a b c : String) (h1 : strLe a b = true)
    (h2 : strLe b c = true) : strLe a c = true :=
  charListLe_trans a.data b.data c.data h1 h2

/-- strLe is antisymmetric. -/
theorem strLe_antisymm (a b : String) (h1 : strLe a b = true)
    (h2 : strLe b a = true) : a = b := by
  have h := charListLe_antisymm a.data b.data h1 h2
  cases a
  cases b
  exact congrArg String.mk h

/-- Sorted insertion is a permutation of consing. -/
theorem orderedInsertStr_perm (x : String) :
    ∀ l : List String, List.Perm (orderedInsertStr x l) (x :: l)
  | [] => List.Perm.refl _
  | y :: ys => by
      unfold orderedInsertStr
      by_cases h : strLe x y = true
      · rw [if_pos h]
      · rw [if_neg h]
        exact ((orderedInsertStr_perm x ys).cons y).trans
          (List.Perm.swap x y ys)

/-- sortStrings permutes its input. -/
theorem sortStrings_perm : ∀ l : List String, List.Perm (sortStrings l) l
  | [] => List.Perm.refl _
  | x :: xs =>
      (orderedInsertStr_perm x (sortStrings xs)).trans
        ((sortStrings_perm xs).cons x)

/-- Membership in a sorted insertion. -/
theorem mem_orderedInsertStr (z x : String) (l : List String) :
    z ∈ orderedInsertStr x l ↔ z = x ∨ z ∈ l := by
  rw [(orderedInsertStr_perm x l).mem_iff]
  exact List.mem_cons

/-- Sorted insertion preserves sortedness. -/
theorem orderedInsertStr_sorted (x : String) (l : List String)
    (h : List.Pairwise (fun a b => strLe a b = true) l) :
    List.Pairwise (fun a b => strLe a b = true) (orderedInsertStr x l) := by
  induction l with
  | nil => simp [orderedInsertStr]
  | cons y ys ih =>
      unfold orderedInsertStr
      rcases List.pairwise_cons.mp h with ⟨hy, hys⟩
      by_cases hxy : strLe x y = true
      · rw [if_pos hxy]
        refine List.pairwise_cons.mpr ⟨?_, h⟩
        intro z hz
        rcases List.mem_cons.mp hz with rfl | hz
        · exact hxy
        · exact strLe_trans x y z hxy (hy z hz)
      · rw [if_neg hxy]
        have hyx : strLe y x = true := (strLe_total x y).resolve_left hxy
        refine List.pairwise_cons.mpr ⟨?_, ih hys⟩
        intro z hz
        rcases (mem_orderedInsertStr z x ys).mp hz with rfl | hz
        · exact hyx
        · exact hy z hz

/-- sortStrings sorts. -/
theorem sortStrings_sorted : ∀ l : List String,
    List.Pairwise (fun a b => strLe a b = true) (sortStrings l)
  | [] => List.Pairwise.nil
  | x :: xs =>
      orderedInsertStr_sorted x (sortStrings xs) (sortStrings_sorted xs)

/-- sortStrings maps permutations to the same sorted list. -/
theorem sortStrings_eq_of_perm (l1 l2 : List String)
    (h : List.Perm l1 l2) : sortStrings l1 = sortStrings l2 := by
  have hp : List.Perm (sortStrings l1) (sortStrings l2) :=
    (sortStrings_perm l1).trans (h.trans (sortStrings_perm l2).symm)
  exact @List.eq_of_perm_of_sorted String (fun a b => strLe a b = true)
    ⟨fun a b h1 h2 => strLe_antisymm a b h1 h2⟩ _ _ hp
    (sortStrings_sorted l1) (sortStrings_sorted l2)

/-- On maps with duplicate-free keys, lookup is permutation-invariant. -/
theorem mapLookup_perm {β : Type} :
    ∀ {m1 m2 : List (String × β)}, List.Perm m1 m2 →
      (m1.map Prod.fst).Nodup → ∀ k, mapLookup m1 k = mapLookup m2 k := by
  intro m1 m2 h
  induction h with
  | nil => intro _ k; rfl
  | cons x h ih =>
      intro hnd k
      rcases x with ⟨kx, vx⟩
      simp only [List.map_cons, List.nodup_cons] at hnd
      unfold mapLookup
      by_cases hk : kx = k
      · rw [if_pos hk, if_pos hk]
      · rw [if_neg hk, if_neg hk]
        exact ih hnd.2 k
  | swap x y l =>
      intro hnd k
      rcases x with ⟨kx, vx⟩
      rcases y with ⟨ky, vy⟩
      simp only [List.map_cons, List.nodup_cons, List.mem_cons] at hnd
      simp only [mapLookup]
      by_cases h1 : ky = k
      · by_cases h2 : kx = k
        · exact absurd (h1.trans h2.symm) fun he => hnd.1 (Or.inl he)
        · rw [if_pos h1, if_neg h2, if_pos h1]
      · by_cases h2 : kx = k
        · rw [if_neg h1, if_pos h2, if_pos h2]
        · rw [if_neg h1, if_neg h2, if_neg h2, if_neg h1]
  | trans h1 h2 ih1 ih2 =>
      intro hnd k
      exact (ih1 hnd k).trans (ih2 ((h1.map Prod.fst).nodup hnd) k)

/-- A successful lookup is a membership. -/
theorem mapLookup_mem {β : Type} : ∀ (m : List (String × β)) (k : String)
    (v : β), mapLookup m k = some v → (k, v) ∈ m
  | [], _, _, h => by simp [mapLookup] at h
  | (k0, v0) :: tl, k, v, h => by
      unfold mapLookup at h
      by_cases hk : k0 = k
      · rw [if_pos hk] at h
        injection h with hv
        subst hv
        subst hk
        exact List.mem_cons_self _ _
      · rw [if_neg hk] at h
        exact List.mem_cons_of_mem _ (mapLookup_mem tl k v h)

/-- Keys in the key list have a successful lookup. -/
theorem mapLookup_isSome_of_mem {β : Type} : ∀ (m : List (String × β))
    (k : String), k ∈ m.map Prod.fst → ∃ v, mapLookup m k = some v
  | [], _, h => by simp at h
  | (k0, v0) :: tl, k, h => by
      simp only [List.map_cons, List.mem_cons] at h
      by_cases hk : k0 = k
      · exact ⟨v0, by unfold mapLookup; rw [if_pos hk]⟩
      · have h2 : k ∈ tl.map Prod.fst := by
          rcases h with h | h
          · exact absurd h.symm hk
          · exact h
        obtain ⟨v, hv⟩ := mapLookup_isSome_of_mem tl k h2
        exact ⟨v, by unfold mapLookup; rw [if_neg hk]; exact hv⟩

/-- Mapping name over filterMap lookups returns the key list when every
key resolves to a Detail named after it. -/
theorem filterMap_lookup_names (m : List (String × Detail)) :
    ∀ keys : List String,
      (∀ k ∈ keys, ∃ d, mapLookup m k = some d ∧ d.name = k) →
      (keys.filterMap fun k => mapLookup m k).map Detail.name = keys := by
  intro keys
  induction keys with
  | nil => intro _; rfl
  | cons k ks ih =>
      intro h
      obtain ⟨d, hd, hname⟩ := h k (List.mem_cons_self _ _)
      simp only [List.filterMap_cons, hd, List.map_cons, hname]
      rw [ih fun x hx => h x (List.mem_cons_of_mem _ hx)]

/-- C9: every snapshot built by the status step has its Targets list
sorted and its Details list sorted by target name, and two snapshots
built from the same details map and selected-name set — in any input
order — are equal. -/
theorem snapshot_deterministic (m1 m2 : List (String × Detail))
    (n1 n2 : List String) (gen : Int) (rstates : List RuleState) (t : Nat)
    (hk : (m1.map Prod.fst).Nodup) (hm : List.Perm m1 m2)
    (hn : List.Perm n1 n2) (hname : ∀ p ∈ m1, (p.2).name = p.1) :
    List.Pairwise (fun a b => strLe a b = true)
      (buildStatus n1 gen m1 rstates t).targets ∧
    (buildStatus n1 gen m1 rstates t).details.map Detail.name =
      sortStrings (m1.map Prod.fst) ∧
    buildStatus n1 gen m1 rstates t = buildStatus n2 gen m2 rstates t := by
  refine ⟨sortStrings_sorted n1, ?_, ?_⟩
  · show (buildDetailList m1).map Detail.name = sortStrings (m1.map Prod.fst)
    unfold buildDetailList
    apply filterMap_lookup_names
    intro k hk2
    have hmem : k ∈ m1.map Prod.fst := (sortStrings_perm _).subset hk2
    obtain ⟨d, hd⟩ := mapLookup_isSome_of_mem (m1) k hmem
    exact ⟨d, hd, hname (k, d) (mapLookup_mem m1 k d hd)⟩
  · have htargets : sortStrings n1 = sortStrings n2 :=
      sortStrings_eq_of_perm n1 n2 hn
    have hdetails : buildDetailList m1 = buildDetailList m2 := by
      unfold buildDetailList
      have hkeys : sortStrings (m1.map Prod.fst) =
          sortStrings (m2.map Prod.fst) :=
        sortStrings_eq_of_perm _ _ (hm.map Prod.fst)
      have hfun : (fun k => mapLookup m1 k) = fun k => mapLookup m2 k :=
        funext (mapLookup_perm hm hk)
      rw [hkeys, hfun]
    simp only [buildStatus, RuleSetStatus.mk.injEq, and_true, true_and]
    exact ⟨htargets, hdetails⟩

/-- Witness for snapshot_deterministic: the same two Details and two
selected names fed in both orders. -/
theorem snapshot_deterministic_witness :
    List.Pairwise (fun a b => strLe a b = true)
      (buildStatus ["y", "x"] 1 [("B", detailBRejected), ("A", detailA)] []
        5).targets ∧
    (buildStatus ["y", "x"] 1 [("B", detailBRejected), ("A", detailA)] []
        5).details.map Detail.name =
      sortStrings ([("B", detailBRejected), ("A", detailA)].map Prod.fst) ∧
    buildStatus ["y", "x"] 1 [("B", detailBRejected), ("A", detailA)] [] 5 =
      buildStatus ["x", "y"] 1 [("A", detailA), ("B", detailBRejected)] []
        5 :=
  snapshot_deterministic [("B", detailBRejected), ("A", detailA)]
    [("A", detailA), ("B", detailBRejected)] ["y", "x"] ["x", "y"] 1 [] 5
    (by decide) (List.Perm.swap ("A", detailA) ("B", detailBRejected) [])
    (List.Perm.swap "x" "y" []) (by decide)

end Ruleset
